import Mathlib

/-!
Shallow embedding of the reactive in-memory data-view engine of CORE_JS:
JS value primitives, the two built-in filters (Core_StringFilter,
Core_IntFilter), the Core_DataSource context/view machinery, the
Core_DataRepository canonical store and the Core_ViewManager pagination.
Each definition is translated from the JavaScript source; comments point
at the source construct being embedded.
-/

namespace CoreJS

/-- A JavaScript value, restricted to the shapes the engine manipulates:
strings, (integer) numbers, booleans, null, undefined and arrays. -/
inductive JSV where
  | str : String → JSV
  | num : Int → JSV
  | bool : Bool → JSV
  | null : JSV
  | undef : JSV
  | arr : List JSV → JSV

/-- JS `String.trim`: strip leading and trailing whitespace (computed on
the character list so that it evaluates by kernel reduction). -/
def jsTrim (s : String) : String :=
  String.mk
    (((s.toList.dropWhile Char.isWhitespace).reverse.dropWhile
      Char.isWhitespace).reverse)

/-- JS `String.toLowerCase` (ASCII, the range the engine manipulates). -/
def jsToLower (s : String) : String :=
  String.mk (s.toList.map Char.toLower)

/-- JS truthiness of a value (used by `if (targetValue)` checks). -/
def jsTruthy : JSV → Bool
  | .str s => s ≠ ""
  | .num n => n ≠ 0
  | .bool b => b
  | .null => false
  | .undef => false
  | .arr _ => true

/-- String conversion of a JS value (`.toString()`); array elements are
joined with commas, null and undefined elements becoming empty strings. -/
def jsvToString : JSV → String
  | .str s => s
  | .num n => toString n
  | .bool b => cond b "true" "false"
  | .null => "null"
  | .undef => "undefined"
  | .arr xs => String.intercalate "," (jsvElemStrings xs)
where
  /-- Stringify the elements of an array for a join. -/
  jsvElemStrings : List JSV → List String
  | [] => []
  | .null :: vs => "" :: jsvElemStrings vs
  | .undef :: vs => "" :: jsvElemStrings vs
  | v :: vs => jsvToString v :: jsvElemStrings vs

/-- Numeric parse of a string as JS does for loose comparison against a
number: the empty (or all-blank) string is 0, an optional minus sign
followed by digits is an integer, anything else is NaN (modeled `none`).
(Fractional and exotic numeric literals are outside the values this
engine manipulates.) -/
def jsStringToNumber (s : String) : Option Int :=
  match (jsTrim s).toList with
  | [] => some 0
  | '-' :: rest => (jsDigits rest).map (fun n => -(n : Int))
  | l => (jsDigits l).map (fun n => (n : Int))
where
  /-- Parse a nonempty all-digit character list. -/
  jsDigits (u : List Char) : Option Nat :=
    if u ≠ [] ∧ u.all Char.isDigit then
      some (u.foldl (fun n c => n * 10 + (c.toNat - 48)) 0)
    else none

/-- JS loose equality specialised to `v == 0` (used by the int filter).
null and undefined are not loosely equal to 0; strings and arrays are
coerced to numbers first. -/
def jsLooseEqZero : JSV → Bool
  | .num n => n == 0
  | .bool b => b == false
  | .null => false
  | .undef => false
  | .str s => jsStringToNumber s == some 0
  | .arr xs => jsStringToNumber (jsvToString (.arr xs)) == some 0

/-- ToPrimitive for loose equality: arrays become their joined string. -/
def jsLoosePrim : JSV → JSV
  | .arr xs => .str (jsvToString (.arr xs))
  | .bool b => .num (cond b 1 0)
  | v => v

/-- JS loose equality (`==`) on the embedded values. Two distinct array
objects are never identical, so `arr == arr` is false. -/
def jsLooseEq (a b : JSV) : Bool :=
  match a, b with
  | .arr _, .arr _ => false
  | x, y =>
    match jsLoosePrim x, jsLoosePrim y with
    | .num u, .num v => u == v
    | .str u, .str v => u == v
    | .num u, .str v => some u == jsStringToNumber v
    | .str u, .num v => jsStringToNumber u == some v
    | .null, .null => true
    | .null, .undef => true
    | .undef, .null => true
    | .undef, .undef => true
    | _, _ => false

/-- Strict inequality against the empty string (`value !== ""`): false
exactly when the value is the string `""`. -/
def jsStrictNeqEmptyString : JSV → Bool
  | .str s => s ≠ ""
  | _ => true

/-- The `??` (nullish coalescing) operator. -/
def jsNullish (v d : JSV) : JSV :=
  match v with
  | .null => d
  | .undef => d
  | x => x

/-- Property read on a JS object modeled as an association list: a missing
property is `undefined`. -/
def jsField (line : List (String × JSV)) (key : String) : JSV :=
  match line with
  | [] => .undef
  | (k, v) :: rest => if k = key then v else jsField rest key

/-- The `.length` read used by the int filter in multiple mode: arrays and
strings have a length; on other values the property is undefined, and
`undefined > 0` is false, so the comparison `length > 0` yields false. -/
def jsLengthGtZero : JSV → Bool
  | .arr xs => 0 < xs.length
  | .str s => 0 < s.length
  | _ => false

/-! ## Core_IntFilter (src/lib/data/filters/core-int-filter.js) -/

/-- Parameters of Core_IntFilter, with the defaults of
`Core_IntFilter.defaultParams` (`dontTestZero: true, isMultiple: false`);
`columnKey` is filled in by the DataSource at registration. -/
structure IntFilterParams where
  dontTestZero : Bool := true
  isMultiple : Bool := false
  columnKey : String := ""
deriving DecidableEq

namespace Core_IntFilter

/-- `Core_IntFilter.activeOrNot(targetValue)`. The filter stores
`targetValue` as its value and reports whether it participates in tests:
in multiple mode the value must be truthy with positive length; otherwise
the source computes
`(value !== '') && ((dontTestZero === true) || (value != 0))`. -/
def activeOrNot (p : IntFilterParams) (targetValue : JSV) : Bool :=
  if p.isMultiple then
    if jsTruthy targetValue then jsLengthGtZero targetValue else false
  else
    jsStrictNeqEmptyString targetValue &&
      (p.dontTestZero || !(jsLooseEqZero targetValue))

/-- `Core_IntFilter.test(line)`, evaluated with the value stored by the
preceding `activeOrNot` call: in multiple mode some element of the array
must loosely equal the record field; otherwise the stored value must
loosely equal the record field. A stored value without `.length` makes
the multiple-mode loop run zero times. -/
def test (p : IntFilterParams) (storedValue : JSV)
    (line : List (String × JSV)) : Bool :=
  if p.isMultiple then
    match storedValue with
    | .arr xs => xs.any (fun v => jsLooseEq (jsField line p.columnKey) v)
    | .str s => s.toList.any
        (fun c => jsLooseEq (jsField line p.columnKey) (.str (String.mk [c])))
    | _ => false
  else
    jsLooseEq storedValue (jsField line p.columnKey)

end Core_IntFilter

/-! ## Core_StringFilter
(src/components/semantic-ui/components/form/sui-select/core-sui-select.js) -/

/-- The four comparison levels of `Core_StringFilter.comparisonLevels`. -/
inductive ComparisonLevel where
  | EQUALS
  | LIKE
  | WILDCARDS
  | WILDCARDS_EXACT
deriving DecidableEq

/-- Parameters of Core_StringFilter with the defaults of
`Core_StringFilter.defaultParams` (EQUALS, testCase false, trimValue
true, isMultiple false). -/
structure StringFilterParams where
  comparisonLevel : ComparisonLevel := .EQUALS
  testCase : Bool := false
  trimValue : Bool := true
  isMultiple : Bool := false
  columnKey : String := ""
deriving DecidableEq

/-- Drop characters of the haystack until the needle is a prefix, then
drop the needle; `none` when the needle never occurs. (The leftmost-match
step of glob and substring search.) -/
def dropAfterMatch (needle : List Char) : List Char → Option (List Char)
  | [] => if needle.isEmpty then some [] else none
  | c :: cs =>
    if List.isPrefixOf needle (c :: cs) then
      some (List.drop needle.length (c :: cs))
    else dropAfterMatch needle cs

/-- JS `String.includes`: contiguous substring test. -/
def jsStrIncludes (hay needle : String) : Bool :=
  (dropAfterMatch needle.toList hay.toList).isSome

/-- Match glob segments (the pieces between `*` of the pattern) in order,
each at its leftmost occurrence, anywhere in the haystack — the unanchored
regex produced by `targetValue.replace(/\*/g, ".*")`. -/
def globSegsMatch : List (List Char) → List Char → Bool
  | [], _ => true
  | n :: rest, hay =>
    match dropAfterMatch n hay with
    | none => false
    | some h2 => globSegsMatch rest h2

/-- Unanchored glob search (comparison level WILDCARDS). -/
def globSearch (hay pattern : String) : Bool :=
  globSegsMatch ((pattern.splitOn "*").map String.toList) hay.toList

/-- Tail of the anchored glob match: middle segments at leftmost
occurrences, the final segment as a suffix. -/
def globExactTail : List (List Char) → List Char → Bool
  | [], hay => hay.isEmpty
  | [s], hay => List.isSuffixOf s hay
  | s :: rest, hay =>
    match dropAfterMatch s hay with
    | none => false
    | some h2 => globExactTail rest h2

/-- Anchored glob match (comparison level WILDCARDS_EXACT, regex
`^pattern$`): the first segment must be a prefix, the rest as in
`globExactTail`. -/
def globExact (hay pattern : String) : Bool :=
  match (pattern.splitOn "*").map String.toList with
  | [] => hay.isEmpty
  | s :: rest =>
    if List.isPrefixOf s hay.toList then
      globExactTail rest (List.drop s.length hay.toList)
    else false

namespace Core_StringFilter

/-- `Core_StringFilter.activeOrNot(targetValue)`: trim when configured,
lowercase a nonempty value when case-insensitive (the wildcard levels
also compile their matcher from this normalized value), store it, and
report active iff the stored value is nonempty. Returns
(isActive, stored value). The source calls string methods on the raw
input, so only string-valued inputs reach this code without throwing. -/
def activeOrNot (p : StringFilterParams) (targetValue : String) :
    Bool × String :=
  let tv := if p.trimValue then jsTrim targetValue else targetValue
  let tv2 := if tv ≠ "" then (if p.testCase then tv else jsToLower tv) else tv
  (decide (tv2 ≠ ""), tv2)

/-- `Core_StringFilter.test(line)`, evaluated with the value stored by the
preceding `activeOrNot` call. The record field is read and coerced with
`(testValue ?? "").toString()`. LIKE lowercases the field when
case-insensitive and tests substring containment; the wildcard levels run
the compiled matcher (whose `i` flag is modeled by lowercasing the field);
EQUALS calls `testValue.compareTo(this.#value)` — but JavaScript strings
have no `compareTo` method, so that branch throws a TypeError at runtime,
modeled as `none`. -/
def test (p : StringFilterParams) (storedValue : String)
    (line : List (String × JSV)) : Option Bool :=
  let testValue := jsvToString (jsNullish (jsField line p.columnKey) (.str ""))
  match p.comparisonLevel with
  | .LIKE =>
    some (jsStrIncludes
      (if p.testCase then testValue else jsToLower testValue) storedValue)
  | .EQUALS => none
  | .WILDCARDS =>
    some (globSearch
      (if p.testCase then testValue else jsToLower testValue) storedValue)
  | .WILDCARDS_EXACT =>
    some (globExact
      (if p.testCase then testValue else jsToLower testValue) storedValue)

end Core_StringFilter

/-! ## JS Map as an insertion-ordered association list -/

section JSMap

variable {α : Type} {β : Type} [DecidableEq α]

/-- `Map.get` / bracket lookup: the value stored under a key. -/
def mapFind : List (α × β) → α → Option β
  | [], _ => none
  | (k, v) :: rest, key => if k = key then some v else mapFind rest key

/-- `Map.set(key, value)`: overwrite in place when the key is present
(JS Maps keep the original insertion position), append otherwise. -/
def mapSet (m : List (α × β)) (key : α) (v : β) : List (α × β) :=
  if (mapFind m key).isSome then
    m.map (fun p => if p.1 = key then (key, v) else p)
  else m ++ [(key, v)]

/-- `Map.delete(key)`. -/
def mapDelete (m : List (α × β)) (key : α) : List (α × β) :=
  m.filter (fun p => p.1 ≠ key)

end JSMap

/-! ## Core_DataSource — filters, views, delta propagation
(src/unnamed/part_001) -/

/-- A filter as the DataSource consumes it. The source stores the raw
value inside the filter on `activeOrNot` and `test` then reads the stored
state; since `computeActiveFiltersForContext` always calls `activeOrNot`
with the context value immediately before any `test`, the state is
flattened: `test v line` is the source `test(line)` after
`activeOrNot(v)`. -/
structure DSFilter (Line : Type) where
  activeOrNot : JSV → Bool
  test : JSV → Line → Bool

section DataSource

variable {K : Type} [DecidableEq K] {Line : Type}

/-- `Core_DataSource.testLine(line, activeFilters)`: the `some` loop that
short-circuits at the first failing filter and keeps the line only when
every active filter passes. -/
def testLine (line : Line) : List (Line → Bool) → Bool
  | [] => true
  | f :: rest => if f line then testLine line rest else false

/-- `Core_DataSource.computeActiveFiltersForContext(context)`: walk the
filter definitions in registration order, activate each with the context
value `fv[filterName] ?? ""`, and keep the test predicates of the filters
whose `activeOrNot` returned true. -/
def computeActiveFiltersForContext (filterDef : List (String × DSFilter Line))
    (fv : List (String × JSV)) : List (Line → Bool) :=
  match filterDef with
  | [] => []
  | (name, f) :: rest =>
    let v := jsNullish ((mapFind fv name).getD .undef) (.str "")
    if f.activeOrNot v then
      f.test v :: computeActiveFiltersForContext rest fv
    else computeActiveFiltersForContext rest fv

variable (getKey : Line → K)

/-- `Core_DataSource.computeContextView(context)`: clear the view, then
insert every line of `#dataArray` that passes `testLine` (via
`addLineToView`, a `view.set` keyed by the primary key). The base-class
`sort` is a no-op, so the stored view keeps insertion order. -/
def computeContextView (dataArray : List Line)
    (activeFilters : List (Line → Bool)) : List (K × Line) :=
  dataArray.foldl
    (fun view line =>
      if testLine line activeFilters then mapSet view (getKey line) line
      else view)
    []

/-- The per-context accumulation of `computeDeltaAddForContexts`: the
evolving view, the three notification maps and the `contextUpdated`
flag. -/
structure DeltaAcc (K Line : Type) where
  view : List (K × Line)
  addedLines : List (K × Line)
  deletedLines : List (K × Line)
  updatedLines : List (K × Line)
  contextUpdated : Bool

/-- One line of the `computeDeltaAddForContexts` batch loop: a passing
line already in the view is updated in place (`processLineUpdated`
returns true), a passing line not in the view is added, a failing line in
the view is removed, and a failing absent line leaves everything
untouched. Each of the first three cases raises the `contextUpdated`
flag and records the line in its map. -/
def deltaStep (activeFilters : List (Line → Bool)) (acc : DeltaAcc K Line)
    (line : Line) : DeltaAcc K Line :=
  let key := getKey line
  if testLine line activeFilters then
    if (mapFind acc.view key).isSome then
      { acc with
        view := mapSet acc.view key line
        updatedLines := mapSet acc.updatedLines key line
        contextUpdated := true }
    else
      { acc with
        view := mapSet acc.view key line
        addedLines := mapSet acc.addedLines key line
        contextUpdated := true }
  else
    if (mapFind acc.view key).isSome then
      { acc with
        view := mapDelete acc.view key
        deletedLines := mapSet acc.deletedLines key line
        contextUpdated := true }
    else acc

/-- The whole per-context batch loop of `computeDeltaAddForContexts`,
starting from the current view with empty accumulations and a lowered
flag. -/
def computeDeltaForContext (activeFilters : List (Line → Bool))
    (view0 : List (K × Line)) (data : List Line) : DeltaAcc K Line :=
  data.foldl (deltaStep getKey activeFilters) ⟨view0, [], [], [], false⟩

/-- The context-updated notification decision at the end of the batch
loop: emitted, with exactly the three accumulated maps, iff the flag was
raised. -/
def deltaNotif (acc : DeltaAcc K Line) :
    Option (List (K × Line) × List (K × Line) × List (K × Line)) :=
  if acc.contextUpdated then
    some (acc.addedLines, acc.updatedLines, acc.deletedLines)
  else none

/-- One context of `Core_DataSource.#contexts`, projected to the fields
the view computation reads: its filter values and its materialized
view. -/
structure CtxView (K Line : Type) where
  filterValues : List (String × JSV)
  view : List (K × Line)

/-- The `Core_DataSource` state the data-update path manipulates:
`#data` (the keyed map), `#dataArray` and the contexts. -/
structure DSViewState (K Line : Type) where
  data : List (K × Line)
  dataArray : List Line
  contexts : List (CtxView K Line)

/-- `Core_DataSource.computeDeltaAddForContexts(data)`: store every delta
line into `#data`, then run the batch loop on every context view. -/
def computeDeltaAddForContexts (filterDef : List (String × DSFilter Line))
    (s : DSViewState K Line) (lines : List Line) : DSViewState K Line :=
  { s with
    data := lines.foldl (fun d l => mapSet d (getKey l) l) s.data
    contexts := s.contexts.map (fun c =>
      { c with view :=
          (computeDeltaForContext getKey
            (computeActiveFiltersForContext filterDef c.filterValues)
            c.view lines).view }) }

/-- `Core_DataSource.recomputeAllContexts(data)`: full recompute of every
context view from `#dataArray`. -/
def recomputeAllContexts (filterDef : List (String × DSFilter Line))
    (s : DSViewState K Line) : DSViewState K Line :=
  { s with
    contexts := s.contexts.map (fun c =>
      { c with view :=
          (computeContextView getKey s.dataArray
            (computeActiveFiltersForContext filterDef c.filterValues)) }) }

/-- The `Core_DataSource.dataUpdateMode` constants. -/
def dataUpdateModeFULL : Nat := 1
/-- Delta-add update mode. -/
def dataUpdateModeDELTA_ADD : Nat := 2
/-- Delta-remove update mode — declared in the source but never handled
by `dataUpdated`. -/
def dataUpdateModeDELTA_REMOVE : Nat := 3

/-- `Core_DataSource.dataUpdated(data, mode)`: FULL replaces `#dataArray`
and rebuilds `#data` (the Map constructor is an iterated `set`), then
recomputes every context; DELTA_ADD runs the incremental propagation and
refreshes `#dataArray` from `#data`. Any other mode — including the
declared DELTA_REMOVE — falls through both branches and leaves the state
untouched. -/
def dataUpdated (filterDef : List (String × DSFilter Line))
    (s : DSViewState K Line) (lines : List Line) (mode : Nat) :
    DSViewState K Line :=
  if mode = dataUpdateModeFULL then
    recomputeAllContexts getKey filterDef
      { s with
        dataArray := lines
        data := lines.foldl (fun d l => mapSet d (getKey l) l) [] }
  else if mode = dataUpdateModeDELTA_ADD then
    let t := computeDeltaAddForContexts getKey filterDef s lines
    { t with dataArray := t.data.map Prod.snd }
  else s

end DataSource

/-! ## Core_DataRepository (src/unnamed/part_004) -/

section DataRepository

variable {K : Type} [DecidableEq K] {Line : Type}

/-- `Core_DataRepository.removeDataByKeys(keys)`: delete every present
key from `#dataMap`, collecting the removed lines; absent keys are
ignored. Returns the new map and the `deletedLines` accumulation. -/
def removeDataByKeys (m : List (K × Line)) (keys : List K) :
    List (K × Line) × List Line :=
  keys.foldl
    (fun acc pk =>
      match mapFind acc.1 pk with
      | some line => (mapDelete acc.1 pk, acc.2 ++ [line])
      | none => acc)
    (m, [])

/-- The notification at the end of `removeDataByKeys`: emitted only when
at least one line was deleted, with empty added/updated lists. -/
def removeDataNotif (deletedLines : List Line) :
    Option (List Line × List Line × List Line) :=
  if 0 < deletedLines.length then some ([], [], deletedLines) else none

end DataRepository

/-! ## Core_DataSource — context management (src/unnamed/part_001)

Contexts are mutable JS objects shared by reference between the
`#contexts` Map and the `#activeContext` field. The embedding gives every
created context object an identity (a heap id): `heap` holds the objects,
`ctxMap` maps names to ids, `activeId` is the `#activeContext` reference.
The object is projected to its `isActive` field, the one this state
machine reads and writes. -/

/-- A context object, projected to `isActive` (defaults to false in
`getDefaultContextParams`). -/
structure CtxObj where
  isActive : Bool
deriving DecidableEq

/-- The context-management state of one Core_DataSource. -/
structure DSCtxState where
  heap : List (Nat × CtxObj)
  ctxMap : List (String × Nat)
  activeId : Option Nat
  nextId : Nat
deriving DecidableEq

/-- Mutate the object stored under a heap id. -/
def heapSet (h : List (Nat × CtxObj)) (i : Nat) (c : CtxObj) :
    List (Nat × CtxObj) :=
  h.map (fun p => if p.1 = i then (i, c) else p)

/-- `Core_DataSource.addContext(contextName)`: allocate a fresh context
object with default params (`isActive: false`), store it under the name,
and — when the map size is 1 after the set — make it the active context
and raise its `isActive` flag. -/
def addContext (s : DSCtxState) (name : String) : DSCtxState :=
  let i := s.nextId
  let heap1 := s.heap ++ [(i, ⟨false⟩)]
  let m1 := mapSet s.ctxMap name i
  if m1.length = 1 then
    { heap := heapSet heap1 i ⟨true⟩, ctxMap := m1, activeId := some i,
      nextId := i + 1 }
  else
    { heap := heap1, ctxMap := m1, activeId := s.activeId, nextId := i + 1 }

/-- `Core_DataSource.removeContext(contextName)`: delete the map entry.
The `#activeContext` reference is left as it is, even when it points at
the deleted context object. -/
def removeContext (s : DSCtxState) (name : String) : DSCtxState :=
  { s with ctxMap := mapDelete s.ctxMap name }

/-- `Core_DataSource.setActiveContext(contextName)`: an unknown name is a
reported error and a no-op. Otherwise the current `#activeContext`
object gets `isActive = false` (through its reference — the object may
already have been removed from the map), the reference is repointed and
the new object gets `isActive = true`. (In JS a null `#activeContext`
would throw here; once a context exists the reference is never null.)
The `onContextSelectedMode` branches touch only views and notifications,
not this bookkeeping. -/
def setActiveContext (s : DSCtxState) (name : String) : DSCtxState :=
  match mapFind s.ctxMap name with
  | none => s
  | some target =>
    let h1 := match s.activeId with
      | some a => heapSet s.heap a ⟨false⟩
      | none => s.heap
    { s with heap := heapSet h1 target ⟨true⟩, activeId := some target }

/-- The constructor state: empty heap and map, null `#activeContext`;
when `createDefaultContext` (default true) a context named "main" is
added. -/
def initCtxState (createDefaultContext : Bool) : DSCtxState :=
  if createDefaultContext then addContext ⟨[], [], none, 0⟩ "main"
  else ⟨[], [], none, 0⟩

/-- One context-management operation. -/
inductive CtxOp where
  | add : String → CtxOp
  | remove : String → CtxOp
  | setActive : String → CtxOp

/-- Apply one operation. -/
def applyCtxOp (s : DSCtxState) : CtxOp → DSCtxState
  | .add name => addContext s name
  | .remove name => removeContext s name
  | .setActive name => setActiveContext s name

/-- Apply a sequence of operations. -/
def applyCtxOps (s : DSCtxState) (ops : List CtxOp) : DSCtxState :=
  ops.foldl applyCtxOp s

/-- How many contexts currently in the map have `isActive = true`. -/
def activeCount (s : DSCtxState) : Nat :=
  s.ctxMap.countP
    (fun p => ((mapFind s.heap p.2).map CtxObj.isActive).getD false)

/-- Guard under which a sequence of operations is considered (the
amendment forced by the counterexamples): a context is never added under
a name already present, and the context the `#activeContext` reference
designates is never removed. -/
def ctxOpOk (s : DSCtxState) : CtxOp → Bool
  | .add name => (mapFind s.ctxMap name).isNone
  | .remove name =>
    match mapFind s.ctxMap name with
    | some i => !(s.activeId == some i)
    | none => true
  | .setActive _ => true

/-- All operations of a sequence are guarded, each at its own state. -/
def ctxOpsOk (s : DSCtxState) : List CtxOp → Bool
  | [] => true
  | op :: rest => ctxOpOk s op && ctxOpsOk (applyCtxOp s op) rest

/-- The bookkeeping invariant of the context-management state: unique
names and object ids, ids bounded by the allocation counter, every
mapped context object present in the heap with its `isActive` flag
raised exactly when the `#activeContext` reference designates it, a null
reference exactly when no context exists, and a reference always
designating a mapped context. -/
def ctxInv (s : DSCtxState) : Prop :=
  (s.ctxMap.map Prod.fst).Nodup ∧
  (s.ctxMap.map Prod.snd).Nodup ∧
  (∀ p ∈ s.ctxMap, p.2 < s.nextId) ∧
  (∀ q ∈ s.heap, q.1 < s.nextId) ∧
  (∀ p ∈ s.ctxMap, ∃ c, mapFind s.heap p.2 = some c ∧
    (c.isActive = true ↔ s.activeId = some p.2)) ∧
  (s.activeId = none ↔ s.ctxMap = []) ∧
  (∀ a, s.activeId = some a → ∃ nm, (nm, a) ∈ s.ctxMap)

/-! ## Core_DataSource — parameters and the context-switch policy -/

/-- `Core_DataSource.onContextSelectedMode` constants. -/
def onCtxSelDO_NOTHING : Int := 1
/-- Policy: recompute the view on context switch. -/
def onCtxSelCOMPUTE_VIEW : Int := 2
/-- Policy: re-sort the view on context switch. -/
def onCtxSelSORT_VIEW : Int := 3
/-- Policy: refresh the view on context switch. -/
def onCtxSelREFRESH_VIEW : Int := 4

/-- The parameters of `Core_DataSource.getDefaultParams()`. The defaults
object sets the key `refreshContextOnSelect` to DO_NOTHING; the key
`setActiveContext` actually reads, `onContextSelectedMode`, is absent
from it, hence undefined (`none`). `pageSize` defaults to null. -/
structure DSParams where
  sourceName : String := "Default"
  updateViewWhenOnFilterChange : Bool := false
  pageSize : Option Int := none
  createDefaultContext : Bool := true
  refreshContextOnSelect : Int := onCtxSelDO_NOTHING
  onContextSelectedMode : Option Int := none

/-- `Core_DataSource.getDefaultParams()`. -/
def getDefaultParams : DSParams := {}

/-- What `setActiveContext` decides to do after repointing the active
context, as a function of `params.onContextSelectedMode` (strict `===` /
`!==` comparisons against the mode constants; an undefined mode differs
from every constant). -/
structure SelectDecision where
  computeView : Bool
  sortView : Bool
  emitViewUpdated : Bool
  emitContextUpdated : Bool
deriving DecidableEq

/-- The branch structure of `setActiveContext` on a known name: compute
the view when the mode is COMPUTE_VIEW, sort it when SORT_VIEW, and emit
both the view-updated and the context-updated notification whenever the
mode is neither DO_NOTHING nor COMPUTE_VIEW. -/
def setActiveContextDecision (onContextSelectedMode : Option Int) :
    SelectDecision :=
  { computeView := onContextSelectedMode == some onCtxSelCOMPUTE_VIEW
    sortView := onContextSelectedMode == some onCtxSelSORT_VIEW
    emitViewUpdated :=
      onContextSelectedMode != some onCtxSelDO_NOTHING &&
        onContextSelectedMode != some onCtxSelCOMPUTE_VIEW
    emitContextUpdated :=
      onContextSelectedMode != some onCtxSelDO_NOTHING &&
        onContextSelectedMode != some onCtxSelCOMPUTE_VIEW }

/-! ## Core_DataSource.updateContextFilters — the filter-value merge

`updateContextFilters(filterValues)` executes
`this.#activeContext.filterValues = { ...this.#activeContext, ...filterValues }`,
a spread of the whole context object. JS objects are embedded as ordered
key-value lists over a small value type. -/

/-- A JS object value, as needed to spread a context object: primitive
fields, nested plain objects and the `view` Map. -/
inductive JSO where
  | str : String → JSO
  | num : Int → JSO
  | bool : Bool → JSO
  | obj : List (String × JSO) → JSO
  | mapv : List (String × JSO) → JSO

/-- Object property lookup. -/
def objLookup : List (String × JSO) → String → Option JSO
  | [], _ => none
  | (k, v) :: rest, key => if k = key then some v else objLookup rest key

/-- The object spread `{ ...a, ...b }`: keys of `a` in order (values
overridden by `b` where both have the key), then keys of `b` not in
`a`. -/
def objSpread2 (a b : List (String × JSO)) : List (String × JSO) :=
  a.map (fun p => (p.1, (objLookup b p.1).getD p.2)) ++
    b.filter (fun p => (objLookup a p.1).isNone)

/-- The new `filterValues` object computed by `updateContextFilters`:
the spread of the whole active-context object with the incoming
values. -/
def updateContextFiltersNewFV (ctxObj values : List (String × JSO)) :
    List (String × JSO) :=
  objSpread2 ctxObj values

/-- A concrete active-context object in the field order JS produces
(`getDefaultContextParams` spread, then `name` assigned): the context is
active and one filter value `a := "x"` was previously set. -/
def exCtxObj : List (String × JSO) :=
  [("isActive", .bool true),
   ("filterValues", .obj [("a", .str "x")]),
   ("view", .mapv []),
   ("sort", .str ""),
   ("currentPage", .num 0),
   ("nbPages", .num 0),
   ("name", .str "main")]

/-! ## Pagination — Core_DataSource.triggerViewUpdatedNotif and
Core_ViewManager (src/lib/data/core-view-manager.js) -/

/-- JS greater-than against 0 for a possibly-null number
(`this.#params.pageSize > 0`; null is not greater than 0). -/
def jsGtZero : Option Int → Bool
  | some n => 0 < n
  | none => false

/-- The `.length` property of a JS Map: the Map API exposes `.size`, not
`.length`, so the read yields undefined. -/
def jsMapLength {K Line : Type} (_ : List (K × Line)) : Option Int := none

/-- `Math.floor(a / b) + 1` over possibly-undefined operands: any
undefined/NaN operand propagates to NaN (`none`). -/
def jsFloorDivAddOne : Option Int → Option Int → Option Int
  | some a, some b => if b = 0 then none else some (Int.fdiv a b + 1)
  | _, _ => none

/-- The pagination update inside
`Core_DataSource.triggerViewUpdatedNotif`: when `pageSize > 0`, set
`currentPage := 1` and
`nbPages := Math.floor(view.length / pageSize) + 1` — `view` is the
active-context Map, so `view.length` is undefined and `nbPages` is NaN.
Returns the (currentPage, nbPages) pair, or `none` when pagination is
off. -/
def triggerViewUpdatedPagination {K Line : Type} (pageSize : Option Int)
    (view : List (K × Line)) : Option (Int × Option Int) :=
  if jsGtZero pageSize then
    some (1, jsFloorDivAddOne (jsMapLength view) pageSize)
  else none

/-- The Core_ViewManager state: working data, visible slice, 1-based
current page, page count and the pagination parameters. -/
structure VMState (Line : Type) where
  data : List Line
  view : List Line
  currentPage : Int
  nbPages : Int
  pagUse : Bool
  pageSize : Int
deriving DecidableEq

/-- `Core_ViewManager.computeViewForPage()`: slice the data to the
current page window. -/
def vmComputeViewForPage {Line : Type} (s : VMState Line) : VMState Line :=
  if s.pagUse then
    { s with view :=
        ((s.data.drop (((s.currentPage - 1) * s.pageSize).toNat)).take
          s.pageSize.toNat) }
  else s

/-- `Core_ViewManager.updateSortOnly()`: base-class `sort()` is a no-op;
with pagination on, reset `currentPage` to 1 only when the data became
strictly shorter than the current page offset, recompute
`nbPages = Math.floor(max(0, length - 1) / pageSize) + 1`, and refresh
the visible slice. -/
def vmUpdateSortOnly {Line : Type} (s : VMState Line) : VMState Line :=
  if s.pagUse then
    let cp : Int :=
      if (s.data.length : Int) < max 0 ((s.currentPage - 1) * s.pageSize)
      then 1 else s.currentPage
    let np : Int := Int.fdiv (max 0 ((s.data.length : Int) - 1)) s.pageSize + 1
    vmComputeViewForPage { s with currentPage := cp, nbPages := np }
  else s

/-- `Core_ViewManager.updateDataArray(data)`: replace the working set
(the view starts as a copy) and re-run sort/pagination. -/
def vmUpdateDataArray {Line : Type} (s : VMState Line) (d : List Line) :
    VMState Line :=
  vmUpdateSortOnly { s with data := d, view := d }

/-- `Core_ViewManager.selectPage(pageIndex)`: a reported error and no-op
when pagination is off or the index is outside `1 ≤ n ≤ nbPages`;
otherwise move to the page and recompute the slice. -/
def vmSelectPage {Line : Type} (s : VMState Line) (n : Int) : VMState Line :=
  if !s.pagUse then s
  else if n < 1 || s.nbPages < n then s
  else vmComputeViewForPage { s with currentPage := n }

/-! ## Concrete instances used to exercise the embedding -/

/-- A concrete record shape (id, name) for instantiating the generic
DataSource machinery. -/
abbrev ExLine := Nat × String

/-- A filter on the name field: active on truthy values, matching by
string equality. -/
def exNameFilter : DSFilter ExLine :=
  { activeOrNot := jsTruthy
    test := fun v l => match v with | .str s => l.2 == s | _ => false }

/-- A filter whose activation is the concrete Core_IntFilter activation
(default params) on column age. -/
def exAgeFilter : DSFilter ExLine :=
  { activeOrNot := Core_IntFilter.activeOrNot { columnKey := "age" }
    test := fun _ _ => true }

/-- One registered filter definition. -/
def exFilterDef : List (String × DSFilter ExLine) := [("name", exNameFilter)]

/-- Context filter values setting the name filter to "Ann". -/
def exFV : List (String × JSV) := [("name", .str "Ann")]

/-- The two-record data batch of the spec scenario. -/
def exData : List ExLine := [(1, "Ann"), (2, "Bob")]

/-- A DataSource state whose canonical store and single context view hold
the record with key 1. -/
def exDSState : DSViewState Nat ExLine :=
  { data := [(1, (1, "Ann"))]
    dataArray := [(1, "Ann")]
    contexts := [{ filterValues := [], view := [(1, (1, "Ann"))] }] }

/-- The string-filter parameters of the spec scenario: EQUALS,
case-insensitive, on column name. -/
def exEqFilterParams : StringFilterParams :=
  { comparisonLevel := .EQUALS, testCase := false, columnKey := "name" }

/-- The record with id 1 of the spec scenario. -/
def exAnnLine : List (String × JSV) := [("id", .num 1), ("name", .str "Ann")]

/-- The record with id 2 of the spec scenario. -/
def exBobLine : List (String × JSV) := [("id", .num 2), ("name", .str "Bob")]

/-- A ViewManager with pagination on (page size 30) and no data yet. -/
def exVM0 : VMState Unit :=
  { data := [], view := [], currentPage := 1, nbPages := 0, pagUse := true,
    pageSize := 30 }

/-- The ViewManager after loading 100 rows. -/
def exVM1 : VMState Unit := vmUpdateDataArray exVM0 (List.replicate 100 ())

/-- The ViewManager after selecting page 4 of 4. -/
def exVM2 : VMState Unit := vmSelectPage exVM1 4

/-- The ViewManager after the data shrinks to 90 rows (exactly three
pages) while page 4 is selected. -/
def exVM3 : VMState Unit := vmUpdateDataArray exVM2 (List.replicate 90 ())

/-! # Theorems -/

/-! ## Association-list map lemmas -/

section MapLemmas

variable {α β : Type} [DecidableEq α]

@[simp]
theorem mapFind_nil (k : α) : mapFind ([] : List (α × β)) k = none := rfl

@[simp]
theorem mapFind_cons (a : α) (b : β) (rest : List (α × β)) (k : α) :
    mapFind ((a, b) :: rest) k = if a = k then some b else mapFind rest k :=
  rfl

theorem mapFind_append_of_none {m1 : List (α × β)} (m2 : List (α × β))
    {k : α} (h : mapFind m1 k = none) :
    mapFind (m1 ++ m2) k = mapFind m2 k := by
  induction m1 with
  | nil => rfl
  | cons p rest ih =>
    obtain ⟨a, b⟩ := p
    rw [mapFind_cons] at h
    by_cases hk : a = k
    · simp [hk] at h
    · simpa [hk] using ih (by simpa [hk] using h)

theorem mapFind_append_of_some {m1 : List (α × β)} (m2 : List (α × β))
    {k : α} {v : β} (h : mapFind m1 k = some v) :
    mapFind (m1 ++ m2) k = some v := by
  induction m1 with
  | nil => simp at h
  | cons p rest ih =>
    obtain ⟨a, b⟩ := p
    rw [mapFind_cons] at h
    by_cases hk : a = k
    · simp [hk] at h ⊢; exact h
    · simp [hk] at h ⊢; exact ih h

theorem mapFind_eq_none_iff {m : List (α × β)} {k : α} :
    mapFind m k = none ↔ k ∉ m.map Prod.fst := by
  induction m with
  | nil => simp
  | cons p rest ih =>
    obtain ⟨a, b⟩ := p
    by_cases hk : a = k
    · subst hk; simp
    · rw [mapFind_cons, if_neg hk, ih, List.map_cons]
      simp [List.mem_cons, Ne.symm hk]

theorem mapFind_some_mem {m : List (α × β)} {k : α} {v : β}
    (h : mapFind m k = some v) : (k, v) ∈ m := by
  induction m with
  | nil => simp at h
  | cons p rest ih =>
    obtain ⟨a, b⟩ := p
    rw [mapFind_cons] at h
    by_cases hk : a = k
    · subst hk
      simp at h
      simp [h]
    · simp [hk] at h
      exact List.mem_cons_of_mem _ (ih h)

theorem mapSet_of_none {m : List (α × β)} {k : α} (v : β)
    (h : mapFind m k = none) : mapSet m k v = m ++ [(k, v)] := by
  simp [mapSet, h]

theorem mapSet_ne_nil (m : List (α × β)) (k : α) (v : β) :
    mapSet m k v ≠ [] := by
  unfold mapSet
  split
  · rename_i hsome
    intro hc
    rw [List.map_eq_nil_iff] at hc
    subst hc
    simp at hsome
  · simp

theorem mapFind_mapDelete (m : List (α × β)) (j k : α) :
    mapFind (mapDelete m j) k = if k = j then none else mapFind m k := by
  induction m with
  | nil => simp [mapDelete]
  | cons p rest ih =>
    obtain ⟨a, b⟩ := p
    by_cases haj : a = j
    · subst haj
      have hdel : mapDelete ((a, b) :: rest) a = mapDelete rest a := by
        simp [mapDelete]
      rw [hdel, ih, mapFind_cons]
      by_cases hkj : k = a
      · simp [hkj]
      · rw [if_neg hkj, if_neg hkj, if_neg (fun h : a = k => hkj h.symm)]
    · have hdel : mapDelete ((a, b) :: rest) j = (a, b) :: mapDelete rest j := by
        simp [mapDelete, haj]
      rw [hdel, mapFind_cons, mapFind_cons, ih]
      by_cases hak : a = k
      · subst hak
        rw [if_pos rfl, if_neg haj, if_pos rfl]
      · rw [if_neg hak]
        by_cases hkj : k = j
        · simp [hkj]
        · simp [hkj, hak]

end MapLemmas

/-! ## Full recompute (C1) -/

section ViewTheorems

variable {K : Type} [DecidableEq K] {Line : Type} (getKey : Line → K)

theorem testLine_eq_all (l : Line) (fs : List (Line → Bool)) :
    testLine l fs = fs.all (fun g => g l) := by
  induction fs with
  | nil => rfl
  | cons f rest ih => by_cases h : f l <;> simp [testLine, h, ih]

theorem computeContextView_foldl_aux (fs : List (Line → Bool)) :
    ∀ (data : List Line) (acc : List (K × Line)),
      (∀ l ∈ data, mapFind acc (getKey l) = none) →
      (data.map getKey).Nodup →
      data.foldl
          (fun view line =>
            if testLine line fs then mapSet view (getKey line) line else view)
          acc
        = acc ++ (data.filter (fun l => testLine l fs)).map
            (fun l => (getKey l, l)) := by
  intro data
  induction data with
  | nil => intro acc _ _; simp
  | cons l rest ih =>
    intro acc hfind hnd
    rw [List.foldl_cons]
    have hl : mapFind acc (getKey l) = none := hfind l (by simp)
    rw [List.map_cons, List.nodup_cons] at hnd
    by_cases hp : testLine l fs
    · rw [if_pos hp, mapSet_of_none l hl]
      have hrest : ∀ x ∈ rest,
          mapFind (acc ++ [(getKey l, l)]) (getKey x) = none := by
        intro x hx
        rw [mapFind_append_of_none _ (hfind x (List.mem_cons_of_mem _ hx))]
        have hne : getKey l ≠ getKey x :=
          fun h => hnd.1 (h ▸ List.mem_map_of_mem getKey hx)
        simp [hne]
      rw [ih _ hrest hnd.2]
      simp [hp, List.filter_cons, List.append_assoc]
    · rw [if_neg hp]
      rw [ih _ (fun x hx => hfind x (List.mem_cons_of_mem _ hx)) hnd.2]
      simp [hp, List.filter_cons]

/-- C1: after a full recompute via `computeContextView`, a record is a
member of the context view exactly when it is a record of the canonical
data and every filter of the active filter set
(`computeActiveFiltersForContext`) passes it — `testLine` short-circuits
at the first failing filter but equals the all-filters conjunction. -/
theorem computeContextView_members_iff_pass
    (filterDef : List (String × DSFilter Line)) (fv : List (String × JSV))
    (dataArray : List Line) (hnd : (dataArray.map getKey).Nodup) (l : Line) :
    (∃ k, (k, l) ∈ computeContextView getKey dataArray
        (computeActiveFiltersForContext filterDef fv)) ↔
      l ∈ dataArray ∧
        ∀ g ∈ computeActiveFiltersForContext filterDef fv, g l = true := by
  unfold computeContextView
  rw [computeContextView_foldl_aux getKey _ dataArray [] (by simp) hnd,
    List.nil_append]
  constructor
  · rintro ⟨k, hk⟩
    rw [List.mem_map] at hk
    obtain ⟨x, hxmem, hxeq⟩ := hk
    have hx : x = l := congrArg Prod.snd hxeq
    subst hx
    rw [List.mem_filter] at hxmem
    refine ⟨hxmem.1, fun g hg => ?_⟩
    have := hxmem.2
    rw [testLine_eq_all] at this
    exact List.all_eq_true.mp this g hg
  · rintro ⟨hmem, hall⟩
    refine ⟨getKey l, ?_⟩
    rw [List.mem_map]
    refine ⟨l, List.mem_filter.mpr ⟨hmem, ?_⟩, rfl⟩
    rw [testLine_eq_all]
    exact List.all_eq_true.mpr hall

end ViewTheorems

/-- C1 witness: the two-record scenario with the name filter set to
"Ann": the hypotheses hold and the theorem applies at the id-1 record. -/
theorem computeContextView_members_iff_pass_witness :
    (exData.map Prod.fst).Nodup ∧
      ((∃ k, (k, ((1, "Ann") : ExLine)) ∈ computeContextView Prod.fst exData
          (computeActiveFiltersForContext exFilterDef exFV)) ↔
        ((1, "Ann") : ExLine) ∈ exData ∧
          ∀ g ∈ computeActiveFiltersForContext exFilterDef exFV,
            g (1, "Ann") = true) :=
  ⟨by decide,
    computeContextView_members_iff_pass Prod.fst exFilterDef exFV exData
      (by decide) (1, "Ann")⟩

/-! ## Incremental propagation (C2) -/

section DeltaTheorems

variable {K : Type} [DecidableEq K] {Line : Type} (getKey : Line → K)

theorem mapSet_isEmpty_false (m : List (K × Line)) (k : K) (v : Line) :
    (mapSet m k v).isEmpty = false := by
  simpa [List.isEmpty_iff] using mapSet_ne_nil m k v

theorem deltaStep_flag (fs : List (Line → Bool)) (acc : DeltaAcc K Line)
    (line : Line)
    (h : acc.contextUpdated =
      (!acc.addedLines.isEmpty || !acc.updatedLines.isEmpty ||
        !acc.deletedLines.isEmpty)) :
    (deltaStep getKey fs acc line).contextUpdated =
      (!(deltaStep getKey fs acc line).addedLines.isEmpty ||
        !(deltaStep getKey fs acc line).updatedLines.isEmpty ||
        !(deltaStep getKey fs acc line).deletedLines.isEmpty) := by
  unfold deltaStep
  by_cases ht : testLine line fs <;>
    by_cases hv : (mapFind acc.view (getKey line)).isSome <;>
      simp [ht, hv, mapSet_isEmpty_false, h]

theorem computeDeltaForContext_flag (fs : List (Line → Bool))
    (view0 : List (K × Line)) (data : List Line) :
    (computeDeltaForContext getKey fs view0 data).contextUpdated =
      (!(computeDeltaForContext getKey fs view0 data).addedLines.isEmpty ||
        !(computeDeltaForContext getKey fs view0 data).updatedLines.isEmpty ||
        !(computeDeltaForContext getKey fs view0 data).deletedLines.isEmpty)
    := by
  unfold computeDeltaForContext
  have main : ∀ (d : List Line) (acc : DeltaAcc K Line),
      acc.contextUpdated =
        (!acc.addedLines.isEmpty || !acc.updatedLines.isEmpty ||
          !acc.deletedLines.isEmpty) →
      (d.foldl (deltaStep getKey fs) acc).contextUpdated =
        (!(d.foldl (deltaStep getKey fs) acc).addedLines.isEmpty ||
          !(d.foldl (deltaStep getKey fs) acc).updatedLines.isEmpty ||
          !(d.foldl (deltaStep getKey fs) acc).deletedLines.isEmpty) := by
    intro d
    induction d with
    | nil => intro acc h; simpa using h
    | cons x rest ih =>
      intro acc h
      rw [List.foldl_cons]
      exact ih _ (deltaStep_flag getKey fs acc x h)
  exact main data ⟨view0, [], [], [], false⟩ rfl

/-- C2: one delta line is classified by `deltaStep` exactly as the claim
states — added iff it passes the active filters and its key is not in the
(evolving) view, updated iff it passes and the key is present, removed
iff it fails and the key is present, untouched otherwise — and at the end
of the batch the context-updated notification is emitted iff at least one
of the three accumulated maps is nonempty, carrying exactly those three
maps. -/
theorem computeDeltaAdd_classification_and_notif
    (fs : List (Line → Bool)) (view0 : List (K × Line)) (data : List Line) :
    (∀ (acc : DeltaAcc K Line) (line : Line),
      (testLine line fs = true →
        (mapFind acc.view (getKey line)).isSome = false →
        deltaStep getKey fs acc line =
          { acc with
              view := mapSet acc.view (getKey line) line
              addedLines := mapSet acc.addedLines (getKey line) line
              contextUpdated := true }) ∧
      (testLine line fs = true →
        (mapFind acc.view (getKey line)).isSome = true →
        deltaStep getKey fs acc line =
          { acc with
              view := mapSet acc.view (getKey line) line
              updatedLines := mapSet acc.updatedLines (getKey line) line
              contextUpdated := true }) ∧
      (testLine line fs = false →
        (mapFind acc.view (getKey line)).isSome = true →
        deltaStep getKey fs acc line =
          { acc with
              view := mapDelete acc.view (getKey line)
              deletedLines := mapSet acc.deletedLines (getKey line) line
              contextUpdated := true }) ∧
      (testLine line fs = false →
        (mapFind acc.view (getKey line)).isSome = false →
        deltaStep getKey fs acc line = acc)) ∧
    ((deltaNotif (computeDeltaForContext getKey fs view0 data)).isSome = true
      ↔ ¬((computeDeltaForContext getKey fs view0 data).addedLines = [] ∧
          (computeDeltaForContext getKey fs view0 data).updatedLines = [] ∧
          (computeDeltaForContext getKey fs view0 data).deletedLines = []))
    ∧ (∀ d, deltaNotif (computeDeltaForContext getKey fs view0 data) = some d
      → d = ((computeDeltaForContext getKey fs view0 data).addedLines,
             (computeDeltaForContext getKey fs view0 data).updatedLines,
             (computeDeltaForContext getKey fs view0 data).deletedLines)) := by
  refine ⟨?_, ?_, ?_⟩
  · intro acc line
    refine ⟨?_, ?_, ?_, ?_⟩ <;> intro h1 h2 <;> simp [deltaStep, h1, h2]
  · have hflag := computeDeltaForContext_flag getKey fs view0 data
    have hchar :
        (computeDeltaForContext getKey fs view0 data).contextUpdated = true ↔
          ¬((computeDeltaForContext getKey fs view0 data).addedLines = [] ∧
            (computeDeltaForContext getKey fs view0 data).updatedLines = [] ∧
            (computeDeltaForContext getKey fs view0 data).deletedLines = [])
        := by
      rw [hflag]
      constructor
      · intro hor hall
        rw [hall.1, hall.2.1, hall.2.2] at hor
        simp at hor
      · intro hnot
        by_contra hfalse
        rw [Bool.not_eq_true, Bool.or_eq_false_iff, Bool.or_eq_false_iff]
          at hfalse
        obtain ⟨⟨ha, hu⟩, hd⟩ := hfalse
        exact hnot
          ⟨List.isEmpty_iff.mp (by simpa using ha),
            List.isEmpty_iff.mp (by simpa using hu),
            List.isEmpty_iff.mp (by simpa using hd)⟩
    unfold deltaNotif
    by_cases hc : (computeDeltaForContext getKey fs view0 data).contextUpdated
    · rw [if_pos hc]
      simpa using hchar.mp hc
    · rw [if_neg hc]
      have htriple := not_not.mp (fun hnt => hc (hchar.mpr hnt))
      simp [htriple.1, htriple.2.1, htriple.2.2]
  · intro d hd
    unfold deltaNotif at hd
    by_cases hc : (computeDeltaForContext getKey fs view0 data).contextUpdated
    · rw [if_pos hc] at hd
      exact (Option.some_inj.mp hd).symm
    · rw [if_neg hc] at hd
      exact absurd hd (by simp)

end DeltaTheorems

/-- C2 witness: applying the classification at the concrete scenario —
the passing record (1, "Ann") against an empty view is classified as
added, raising the flag. -/
theorem computeDeltaAdd_classification_witness :
    deltaStep Prod.fst (computeActiveFiltersForContext exFilterDef exFV)
        ⟨[], [], [], [], false⟩ ((1, "Ann") : ExLine) =
      { view := [(1, (1, "Ann"))], addedLines := [(1, (1, "Ann"))],
        deletedLines := [], updatedLines := [], contextUpdated := true } := by
  have h := (computeDeltaAdd_classification_and_notif Prod.fst
    (computeActiveFiltersForContext exFilterDef exFV) [] exData).1
      ⟨[], [], [], [], false⟩ (1, "Ann")
  exact (h.1 rfl rfl).trans rfl

/-- C7: the claim says an int filter with `dontTestZero: true` reports
inactive for the filter value 0. The code does the opposite:
`activeOrNot(0)` returns true when `dontTestZero` is true (the flag sits
on the wrong side of the disjunction), and returns false when the flag is
false — inverted with respect to the doc comment on `test` and to the
spec. -/
theorem int_filter_zero_active_with_dontTestZero :
    Core_IntFilter.activeOrNot { dontTestZero := true, columnKey := "age" }
        (.num 0) = true ∧
      Core_IntFilter.activeOrNot
        { dontTestZero := false, columnKey := "age" } (.num 0) = false :=
  ⟨rfl, rfl⟩

/-- C6: in the spec scenario (EQUALS, case-insensitive, column name,
filter value "ann"), the filter activates and stores "ann", but `test`
reaches the EQUALS branch `testValue.compareTo(this.#value)` — a method
JavaScript strings do not have — so testing either record throws
(modeled `none`). The scenario therefore cannot produce the view
containing exactly the id-1 record. -/
theorem equals_filter_test_throws :
    Core_StringFilter.activeOrNot exEqFilterParams "ann" = (true, "ann") ∧
      Core_StringFilter.test exEqFilterParams "ann" exAnnLine = none ∧
      Core_StringFilter.test exEqFilterParams "ann" exBobLine = none :=
  ⟨rfl, rfl, rfl⟩

/-- C9: with the default parameters, `setActiveContext` on a known name
reads `params.onContextSelectedMode` — a key the defaults never set (they
set `refreshContextOnSelect`) — so the mode is undefined: no recompute
and no re-sort happen, but both the view-updated and the context-updated
notification are emitted, against the claim. Had the read mode actually
been DO_NOTHING, nothing would have been emitted. -/
theorem setActiveContext_default_mode_emits_notifs :
    setActiveContextDecision getDefaultParams.onContextSelectedMode =
        { computeView := false, sortView := false, emitViewUpdated := true,
          emitContextUpdated := true } ∧
      setActiveContextDecision (some onCtxSelDO_NOTHING) =
        { computeView := false, sortView := false, emitViewUpdated := false,
          emitContextUpdated := false } :=
  ⟨rfl, rfl⟩

/-- C4: `updateContextFilters` computes the new `filterValues` as
`{ ...this.#activeContext, ...filterValues }` — a spread of the whole
context object. On a context whose `filterValues` held `a := "x"`,
merging `b := "y"` loses the previously set name `a` at top level (the
old values survive only nested under a `filterValues` key) and leaks the
non-filter context fields (`isActive`, `view`, ...) into the result. -/
theorem updateContextFilters_spreads_whole_context :
    objLookup (updateContextFiltersNewFV exCtxObj [("b", .str "y")]) "a"
        = none ∧
      objLookup (updateContextFiltersNewFV exCtxObj [("b", .str "y")]) "b"
        = some (.str "y") ∧
      objLookup (updateContextFiltersNewFV exCtxObj [("b", .str "y")])
        "isActive" = some (.bool true) ∧
      objLookup (updateContextFiltersNewFV exCtxObj [("b", .str "y")])
        "view" = some (.mapv []) ∧
      objLookup (updateContextFiltersNewFV exCtxObj [("b", .str "y")])
        "filterValues" = some (.obj [("a", .str "x")]) :=
  ⟨rfl, rfl, rfl, rfl, rfl⟩

/-- C8: two violations of the pagination bound, one per component. In
`Core_DataSource.triggerViewUpdatedNotif` the page count is
`Math.floor(view.length / pageSize) + 1` on the view Map, whose `.length`
is undefined — the page count is NaN for every view whenever a page size
is configured, so `1 ≤ currentPage ≤ pageCount` cannot hold. In
Core_ViewManager, shrinking 100 rows to 90 (exactly 3 pages of 30) while
page 4 is selected keeps `currentPage = 4` with `nbPages = 3` (the reset
guard uses a strict `<`). The out-of-range `selectPage` half of the claim
does hold: it leaves the state unchanged. -/
theorem pagination_bound_violations :
    (∀ (view : List (Nat × ExLine)),
        triggerViewUpdatedPagination (some 30) view = some (1, none)) ∧
      exVM3.currentPage = 4 ∧ exVM3.nbPages = 3 ∧
      ¬(exVM3.currentPage ≤ exVM3.nbPages) ∧
      vmSelectPage exVM1 7 = exVM1 ∧ vmSelectPage exVM1 0 = exVM1 :=
  ⟨fun _ => rfl, by decide, by decide, by decide, by decide, by decide⟩

/-! ## Delta removal (C3) -/

section RemovalTheorems

variable {K : Type} [DecidableEq K] {Line : Type}

theorem removeData_foldl_none (keys : List K) :
    ∀ (st : List (K × Line) × List Line) (k : K), mapFind st.1 k = none →
      mapFind
        (keys.foldl
          (fun acc pk =>
            match mapFind acc.1 pk with
            | some line => (mapDelete acc.1 pk, acc.2 ++ [line])
            | none => acc)
          st).1 k = none := by
  induction keys with
  | nil => intro st k h; simpa using h
  | cons pk rest ih =>
    intro st k h
    rw [List.foldl_cons]
    apply ih
    cases hf : mapFind st.1 pk with
    | none => simpa [hf] using h
    | some line =>
      simp only [hf]
      rw [mapFind_mapDelete]
      by_cases hk : k = pk
      · simp [hk]
      · simpa [hk] using h

theorem removeDataByKeys_deletes (m : List (K × Line)) (keys : List K)
    (k : K) (hk : k ∈ keys) :
    mapFind (removeDataByKeys m keys).1 k = none := by
  unfold removeDataByKeys
  have main : ∀ (ks : List K) (st : List (K × Line) × List Line) (k : K),
      k ∈ ks →
      mapFind
        (ks.foldl
          (fun acc pk =>
            match mapFind acc.1 pk with
            | some line => (mapDelete acc.1 pk, acc.2 ++ [line])
            | none => acc)
          st).1 k = none := by
    intro ks
    induction ks with
    | nil => intro st k h; simp at h
    | cons pk rest ih =>
      intro st k hkmem
      rw [List.foldl_cons]
      rcases List.mem_cons.mp hkmem with h | h
      · subst h
        apply removeData_foldl_none
        cases hf : mapFind st.1 k with
        | none => simp [hf]
        | some line => simp [hf, mapFind_mapDelete]
      · exact ih _ k h
  exact main keys (m, []) k hk

end RemovalTheorems

/-- C3: the repository half of the claim holds —
`Core_DataRepository.removeDataByKeys` deletes every removed key that is
present from the canonical map — but the context half does not: the
record under key 1 is in the canonical data and in the context view, and
`Core_DataSource.dataUpdated` in mode DELTA_REMOVE has no branch at all,
so the state (context views included) is returned untouched instead of
treating the removed record as a leave. -/
theorem removal_deletes_store_but_not_context_views :
    (∀ (K : Type) (_ : DecidableEq K) (Line : Type) (m : List (K × Line))
      (keys : List K) (k : K), k ∈ keys →
        mapFind (removeDataByKeys m keys).1 k = none) ∧
      mapFind exDSState.data 1 = some (1, "Ann") ∧
      dataUpdated Prod.fst exFilterDef exDSState [((1 : Nat), "Ann")]
          dataUpdateModeDELTA_REMOVE = exDSState ∧
      ((dataUpdated Prod.fst exFilterDef exDSState [((1 : Nat), "Ann")]
            dataUpdateModeDELTA_REMOVE).contexts.map
          (fun c => mapFind c.view 1)) = [some (1, "Ann")] :=
  ⟨fun _ _ _ m keys k hk => removeDataByKeys_deletes m keys k hk,
    rfl, rfl, rfl⟩

/-- C3 witness: the general deletion conjunct applied at a concrete
store and key list. -/
theorem removal_deletes_store_witness :
    (1 : Nat) ∈ [1, 2] ∧
      mapFind (removeDataByKeys [((1 : Nat), "Ann"), (3, "Bob")] [1, 2]).1 1
        = none :=
  ⟨by decide,
    removal_deletes_store_but_not_context_views.1 Nat inferInstance String
      [(1, "Ann"), (3, "Bob")] [1, 2] 1 (by decide)⟩

/-! ## Inactive filters (C10) -/

section InactiveFilter

variable {Line : Type}

theorem computeActiveFilters_append (l1 l2 : List (String × DSFilter Line))
    (fv : List (String × JSV)) :
    computeActiveFiltersForContext (l1 ++ l2) fv =
      computeActiveFiltersForContext l1 fv ++
        computeActiveFiltersForContext l2 fv := by
  induction l1 with
  | nil => rfl
  | cons p rest ih =>
    obtain ⟨name, f⟩ := p
    by_cases h :
        f.activeOrNot (jsNullish ((mapFind fv name).getD .undef) (.str "")) <;>
      simp [computeActiveFiltersForContext, h, ih]

end InactiveFilter

/-- C10: a registered filter whose name has no (or a null) entry in the
context filter values is activated with the empty string; both built-in
filter kinds (for every parameter configuration, covering single and
multiple mode) report inactive on it; and such a filter is dropped from
the active filter set, leaving the recomputed view exactly what it would
be without the filter. -/
theorem inactive_filter_never_excludes :
    (∀ p : StringFilterParams,
        Core_StringFilter.activeOrNot p "" = (false, "")) ∧
      (∀ q : IntFilterParams, Core_IntFilter.activeOrNot q (.str "") = false)
      ∧ (∀ (fv : List (String × JSV)) (name : String),
          mapFind fv name = none ∨ mapFind fv name = some .null →
          jsNullish ((mapFind fv name).getD .undef) (.str "") = .str "") ∧
      (∀ (K : Type) (_ : DecidableEq K) (Line : Type) (getKey : Line → K)
        (pre post : List (String × DSFilter Line)) (name : String)
        (f : DSFilter Line) (fv : List (String × JSV))
        (dataArray : List Line),
        mapFind fv name = none ∨ mapFind fv name = some .null →
        f.activeOrNot (.str "") = false →
        computeActiveFiltersForContext (pre ++ (name, f) :: post) fv =
            computeActiveFiltersForContext (pre ++ post) fv ∧
          computeContextView getKey dataArray
              (computeActiveFiltersForContext (pre ++ (name, f) :: post) fv)
            = computeContextView getKey dataArray
                (computeActiveFiltersForContext (pre ++ post) fv)) := by
  refine ⟨?_, ?_, ?_, ?_⟩
  · intro p
    obtain ⟨cl, tc, tv, im, ck⟩ := p
    cases tv <;> cases tc <;> rfl
  · intro q
    obtain ⟨dz, im, ck⟩ := q
    cases dz <;> cases im <;> rfl
  · rintro fv name (h | h) <;> rw [h] <;> rfl
  · intro K instK Line getKey pre post name f fv dataArray hfv hact
    have hv : jsNullish ((mapFind fv name).getD .undef) (.str "") = .str ""
      := by rcases hfv with h | h <;> rw [h] <;> rfl
    have hcons : computeActiveFiltersForContext ((name, f) :: post) fv =
        computeActiveFiltersForContext post fv := by
      have hstep : computeActiveFiltersForContext ((name, f) :: post) fv =
          (let v := jsNullish ((mapFind fv name).getD .undef) (.str "")
           if f.activeOrNot v = true then
             f.test v :: computeActiveFiltersForContext post fv
           else computeActiveFiltersForContext post fv) := rfl
      rw [hstep, hv]
      simp [hact]
    have heq : computeActiveFiltersForContext (pre ++ (name, f) :: post) fv
        = computeActiveFiltersForContext (pre ++ post) fv := by
      rw [computeActiveFilters_append, computeActiveFilters_append, hcons]
    exact ⟨heq, by rw [heq]⟩

/-- C10 witness: the default-parameter string and int filters on the
empty value, and an int-activated filter under name "age" — absent from
the filter values — dropped from the active set without changing the
recomputed view. -/
theorem inactive_filter_never_excludes_witness :
    Core_StringFilter.activeOrNot {} "" = (false, "") ∧
      Core_IntFilter.activeOrNot {} (.str "") = false ∧
      (computeActiveFiltersForContext
            ([] ++ ("age", exAgeFilter) :: exFilterDef) exFV =
          computeActiveFiltersForContext ([] ++ exFilterDef) exFV ∧
        computeContextView Prod.fst exData
            (computeActiveFiltersForContext
              ([] ++ ("age", exAgeFilter) :: exFilterDef) exFV) =
          computeContextView Prod.fst exData
            (computeActiveFiltersForContext ([] ++ exFilterDef) exFV)) :=
  ⟨inactive_filter_never_excludes.1 {},
    inactive_filter_never_excludes.2.1 {},
    inactive_filter_never_excludes.2.2.2 Nat inferInstance ExLine Prod.fst
      [] exFilterDef "age" exAgeFilter exFV exData (Or.inl rfl) rfl⟩

/-! ## Context management (C5) -/

theorem heapSet_fst (h : List (Nat × CtxObj)) (i : Nat) (c : CtxObj) :
    (heapSet h i c).map Prod.fst = h.map Prod.fst := by
  unfold heapSet
  rw [List.map_map]
  apply List.map_congr_left
  intro p _
  by_cases hp : p.1 = i
  · simp [Function.comp, hp]
  · simp [Function.comp, hp]

theorem heapSet_keys_lt (h : List (Nat × CtxObj)) (i : Nat) (c : CtxObj)
    (n : Nat) (hh : ∀ q ∈ h, q.1 < n) : ∀ q ∈ heapSet h i c, q.1 < n := by
  intro q hq
  unfold heapSet at hq
  rw [List.mem_map] at hq
  obtain ⟨p, hp, hfp⟩ := hq
  have hq1 : q.1 = p.1 := by
    by_cases hpi : p.1 = i
    · rw [← hfp]; simp [hpi]
    · rw [← hfp]; simp [hpi]
  rw [hq1]
  exact hh p hp

theorem mapFind_heapSet (h : List (Nat × CtxObj)) (i : Nat) (c : CtxObj)
    (k : Nat) :
    mapFind (heapSet h i c) k =
      if k = i then (mapFind h i).map (fun _ => c) else mapFind h k := by
  induction h with
  | nil => by_cases hk : k = i <;> simp [heapSet, hk]
  | cons p rest ih =>
    obtain ⟨a, b⟩ := p
    by_cases hai : a = i
    · subst hai
      have hhead : heapSet ((a, b) :: rest) a c = (a, c) :: heapSet rest a c
        := by simp [heapSet]
      by_cases hk : k = a
      · subst hk
        simp [hhead]
      · have hak : a ≠ k := fun hh => hk hh.symm
        simp [hhead, hak, hk, ih]
    · have hhead : heapSet ((a, b) :: rest) i c = (a, b) :: heapSet rest i c
        := by simp [heapSet, hai]
      by_cases hak : a = k
      · subst hak
        simp [hhead, hai]
      · simp [hhead, hak, hai, ih]

theorem mapFind_eq_of_mem_nodup {α β : Type} [DecidableEq α]
    {m : List (α × β)} {k : α} {v : β} (hnd : (m.map Prod.fst).Nodup)
    (hmem : (k, v) ∈ m) : mapFind m k = some v := by
  induction m with
  | nil => simp at hmem
  | cons p rest ih =>
    obtain ⟨a, b⟩ := p
    rw [List.map_cons, List.nodup_cons] at hnd
    rcases List.mem_cons.mp hmem with h | h
    · have hka : k = a := congrArg Prod.fst h
      have hvb : v = b := congrArg Prod.snd h
      subst hka; subst hvb
      simp
    · by_cases hak : a = k
      · exfalso
        apply hnd.1
        rw [hak]
        exact List.mem_map.mpr ⟨(k, v), h, rfl⟩
      · rw [mapFind_cons, if_neg hak]
        exact ih hnd.2 h

theorem ctxInv_addContext (s : DSCtxState) (name : String)
    (hfresh : mapFind s.ctxMap name = none) (h : ctxInv s) :
    ctxInv (addContext s name) := by
  obtain ⟨hA, hB, hF, hG, hC, hD, hE⟩ := h
  have hnamefree : name ∉ s.ctxMap.map Prod.fst := mapFind_eq_none_iff.mp hfresh
  have hm1 : mapSet s.ctxMap name s.nextId = s.ctxMap ++ [(name, s.nextId)] :=
    mapSet_of_none _ hfresh
  have hheapfind : mapFind s.heap s.nextId = none :=
    mapFind_eq_none_iff.mpr (fun hmem => by
      rw [List.mem_map] at hmem
      obtain ⟨q, hq, hq1⟩ := hmem
      exact absurd (hq1 ▸ hG q hq) (lt_irrefl _))
  unfold addContext
  by_cases hlen : (mapSet s.ctxMap name s.nextId).length = 1
  · rw [if_pos hlen]
    have hempty : s.ctxMap = [] := by
      rw [hm1, List.length_append, List.length_singleton] at hlen
      exact List.length_eq_zero.mp (Nat.succ_injective hlen)
    have hmap1 : mapSet s.ctxMap name s.nextId = [(name, s.nextId)] := by
      rw [hm1, hempty, List.nil_append]
    have hfind : mapFind (heapSet (s.heap ++ [(s.nextId, ⟨false⟩)])
        s.nextId ⟨true⟩) s.nextId = some ⟨true⟩ := by
      rw [mapFind_heapSet, if_pos rfl,
        mapFind_append_of_none _ hheapfind]
      simp
    refine ⟨?_, ?_, ?_, ?_, ?_, ?_, ?_⟩
    · rw [hmap1]; simp
    · rw [hmap1]; simp
    · rw [hmap1]
      intro p hp
      rw [List.mem_singleton] at hp
      subst hp
      exact Nat.lt_succ_self _
    · apply heapSet_keys_lt
      intro q hq
      rcases List.mem_append.mp hq with hq | hq
      · exact Nat.lt_succ_of_lt (hG q hq)
      · rw [List.mem_singleton] at hq
        subst hq
        exact Nat.lt_succ_self _
    · rw [hmap1]
      intro p hp
      rw [List.mem_singleton] at hp
      subst hp
      exact ⟨⟨true⟩, hfind, by simp⟩
    · rw [hmap1]
      constructor
      · intro hnone; simp at hnone
      · intro hnil; simp at hnil
    · intro a ha
      rw [hmap1]
      have hna : s.nextId = a := by simpa using ha
      exact ⟨name, by rw [← hna]; exact List.mem_singleton.mpr rfl⟩
  · rw [if_neg hlen]
    have hne : s.ctxMap ≠ [] := by
      intro hnil
      apply hlen
      rw [hm1, hnil, List.nil_append, List.length_singleton]
    refine ⟨?_, ?_, ?_, ?_, ?_, ?_, ?_⟩
    · rw [hm1, List.map_append]
      simp only [List.map_cons, List.map_nil]
      rw [List.nodup_append]
      exact ⟨hA, List.nodup_singleton _, by simpa using hnamefree⟩
    · rw [hm1, List.map_append]
      simp only [List.map_cons, List.map_nil]
      rw [List.nodup_append]
      refine ⟨hB, List.nodup_singleton _, ?_⟩
      intro x hx
      rw [List.mem_map] at hx
      obtain ⟨p, hp, hpx⟩ := hx
      have := hF p hp
      simp only [List.mem_singleton]
      intro hxeq
      rw [hxeq] at hpx
      exact absurd (hpx ▸ this) (lt_irrefl _)
    · rw [hm1]
      intro p hp
      rcases List.mem_append.mp hp with hp | hp
      · exact Nat.lt_succ_of_lt (hF p hp)
      · rw [List.mem_singleton] at hp
        subst hp
        exact Nat.lt_succ_self _
    · intro q hq
      rcases List.mem_append.mp hq with hq | hq
      · exact Nat.lt_succ_of_lt (hG q hq)
      · rw [List.mem_singleton] at hq
        subst hq
        exact Nat.lt_succ_self _
    · rw [hm1]
      intro p hp
      rcases List.mem_append.mp hp with hp | hp
      · obtain ⟨c, hcfind, hciff⟩ := hC p hp
        exact ⟨c, mapFind_append_of_some _ hcfind, hciff⟩
      · rw [List.mem_singleton] at hp
        subst hp
        refine ⟨⟨false⟩, ?_, ?_⟩
        · rw [mapFind_append_of_none _ hheapfind]
          simp
        · simp only [Bool.false_eq_true, false_iff]
          intro hact
          cases hact0 : s.activeId with
          | none => rw [hact0] at hact; exact Option.noConfusion hact
          | some a =>
            rw [hact0] at hact
            obtain ⟨nm, hnm⟩ := hE a hact0
            have hlt := hF (nm, a) hnm
            have : a = s.nextId := Option.some_inj.mp hact
            exact absurd (this ▸ hlt) (lt_irrefl _)
    · constructor
      · intro hnone
        exact absurd (hD.mp hnone) hne
      · intro hnil
        rw [hm1] at hnil
        exact absurd hnil (by simp)
    · intro a ha
      obtain ⟨nm, hnm⟩ := hE a ha
      exact ⟨nm, hm1 ▸ List.mem_append_left _ hnm⟩

theorem ctxInv_removeContext (s : DSCtxState) (name : String)
    (hok : ∀ i, mapFind s.ctxMap name = some i → s.activeId ≠ some i)
    (h : ctxInv s) : ctxInv (removeContext s name) := by
  obtain ⟨hA, hB, hF, hG, hC, hD, hE⟩ := h
  have hdel : mapDelete s.ctxMap name =
      s.ctxMap.filter (fun p => p.1 ≠ name) := rfl
  have hsurvive : ∀ a, s.activeId = some a →
      ∃ nm, (nm, a) ∈ mapDelete s.ctxMap name := by
    intro a ha
    obtain ⟨nm, hnm⟩ := hE a ha
    have hnmne : nm ≠ name := by
      intro hEq
      subst hEq
      exact hok a (mapFind_eq_of_mem_nodup hA hnm) ha
    refine ⟨nm, ?_⟩
    rw [hdel, List.mem_filter]
    exact ⟨hnm, by simp [hnmne]⟩
  unfold removeContext
  refine ⟨?_, ?_, ?_, hG, ?_, ?_, hsurvive⟩
  · rw [hdel]
    exact hA.sublist ((List.filter_sublist _).map Prod.fst)
  · rw [hdel]
    exact hB.sublist ((List.filter_sublist _).map Prod.snd)
  · intro p hp
    rw [hdel] at hp
    exact hF p (List.mem_of_mem_filter hp)
  · intro p hp
    rw [hdel] at hp
    exact hC p (List.mem_of_mem_filter hp)
  · constructor
    · intro hnone
      rw [hdel, hD.mp hnone]
      rfl
    · intro hnil
      have hnil2 : mapDelete s.ctxMap name = [] := hnil
      cases hact : s.activeId with
      | none => rfl
      | some a =>
        obtain ⟨nm, hnm⟩ := hsurvive a hact
        rw [hnil2] at hnm
        exact absurd hnm (List.not_mem_nil _)

theorem ctxInv_setActiveContext (s : DSCtxState) (name : String)
    (h : ctxInv s) : ctxInv (setActiveContext s name) := by
  obtain ⟨hA, hB, hF, hG, hC, hD, hE⟩ := h
  unfold setActiveContext
  cases hf : mapFind s.ctxMap name with
  | none => exact ⟨hA, hB, hF, hG, hC, hD, hE⟩
  | some target =>
    have htmem : (name, target) ∈ s.ctxMap := mapFind_some_mem hf
    have hne : s.ctxMap ≠ [] := by
      intro hnil
      rw [hnil] at htmem
      exact absurd htmem (List.not_mem_nil _)
    cases hact : s.activeId with
    | none => exact absurd (hD.mp hact) hne
    | some a =>
      refine ⟨hA, hB, hF, ?_, ?_, ?_, ?_⟩
      · exact heapSet_keys_lt _ _ _ _ (heapSet_keys_lt _ _ _ _ hG)
      · intro p hp
        obtain ⟨c, hcfind, hciff⟩ := hC p hp
        by_cases hpt : p.2 = target
        · refine ⟨⟨true⟩, ?_, by simp [hpt]⟩
          rw [mapFind_heapSet, if_pos hpt, mapFind_heapSet]
          obtain ⟨c2, hc2, -⟩ := hC (name, target) htmem
          by_cases hta : target = a
          · rw [if_pos hta, ← hta, hc2]
            simp
          · rw [if_neg hta, hc2]
            simp
        · by_cases hpa : p.2 = a
          · refine ⟨⟨false⟩, ?_, ?_⟩
            · rw [mapFind_heapSet, if_neg hpt, mapFind_heapSet, if_pos hpa,
                ← hpa, hcfind]
              simp
            · simp only [Bool.false_eq_true, false_iff]
              intro hcon
              exact hpt (Option.some_inj.mp hcon).symm
          · refine ⟨c, ?_, ?_⟩
            · rw [mapFind_heapSet, if_neg hpt, mapFind_heapSet, if_neg hpa,
                hcfind]
            · have hcfalse : c.isActive = false := by
                cases hca : c.isActive
                · rfl
                · exfalso
                  have hsome := hciff.mp hca
                  rw [hact] at hsome
                  exact hpa (Option.some_inj.mp hsome).symm
              rw [hcfalse]
              simp only [Bool.false_eq_true, false_iff]
              intro hcon
              exact hpt (Option.some_inj.mp hcon).symm
      · constructor
        · intro hnone
          exact absurd hnone (by simp)
        · intro hnil
          exact absurd hnil hne
      · intro a0 ha0
        have hta : target = a0 := by simpa using ha0
        exact ⟨name, hta ▸ htmem⟩

theorem ctxInv_applyCtxOps (ops : List CtxOp) :
    ∀ (s : DSCtxState), ctxOpsOk s ops = true → ctxInv s →
      ctxInv (applyCtxOps s ops) := by
  induction ops with
  | nil => intro s _ h; exact h
  | cons op rest ih =>
    intro s hok hinv
    rw [ctxOpsOk, Bool.and_eq_true] at hok
    unfold applyCtxOps
    rw [List.foldl_cons]
    apply ih _ hok.2
    cases op with
    | add name =>
      apply ctxInv_addContext _ _ _ hinv
      have := hok.1
      rw [ctxOpOk] at this
      exact Option.isNone_iff_eq_none.mp this
    | remove name =>
      apply ctxInv_removeContext _ _ _ hinv
      intro i hi hcon
      have h1 := hok.1
      rw [ctxOpOk, hi] at h1
      rw [hcon] at h1
      simp at h1
    | setActive name => exact ctxInv_setActiveContext _ _ hinv

theorem ctxInv_init (b : Bool) : ctxInv (initCtxState b) := by
  have hempty : ctxInv ⟨[], [], none, 0⟩ := by
    refine ⟨by simp, by simp, by simp, by simp, by simp, by simp, by simp⟩
  cases b with
  | false => exact hempty
  | true => exact ctxInv_addContext ⟨[], [], none, 0⟩ "main" rfl hempty

theorem ctxInv_unique_active (s : DSCtxState) (h : ctxInv s)
    (hne : s.ctxMap ≠ []) :
    activeCount s = 1 ∧
      ∃ a, s.activeId = some a ∧ ∃ nm, (nm, a) ∈ s.ctxMap ∧
        (mapFind s.heap a).map CtxObj.isActive = some true := by
  obtain ⟨hA, hB, hF, hG, hC, hD, hE⟩ := h
  cases hact : s.activeId with
  | none => exact absurd (hD.mp hact) hne
  | some a =>
    obtain ⟨nm, hnm⟩ := hE a hact
    have hfindtrue : (mapFind s.heap a).map CtxObj.isActive = some true := by
      obtain ⟨c, hcf, hciff⟩ := hC (nm, a) hnm
      rw [hcf]
      have hca : c.isActive = true := hciff.mpr (by rw [hact])
      simp [hca]
    refine ⟨?_, a, rfl, nm, hnm, hfindtrue⟩
    unfold activeCount
    have hpt : ∀ p ∈ s.ctxMap,
        (((mapFind s.heap p.2).map CtxObj.isActive).getD false) = true ↔
          (p.2 == a) = true := by
      intro p hp
      obtain ⟨c, hcf, hciff⟩ := hC p hp
      rw [hcf]
      by_cases hpa : p.2 = a
      · have hca : c.isActive = true := hciff.mpr (by rw [hact, hpa])
        simp [hca, hpa]
      · have hcfalse : c.isActive = false := by
          cases hca : c.isActive
          · rfl
          · exfalso
            have hsome := hciff.mp hca
            rw [hact] at hsome
            exact hpa (Option.some_inj.mp hsome).symm
        simp [hcfalse, hpa]
    rw [List.countP_congr hpt]
    have hmapped : s.ctxMap.countP (fun p => p.2 == a) =
        (s.ctxMap.map Prod.snd).countP (· == a) := by
      rw [List.countP_map]
      rfl
    rw [hmapped]
    exact List.count_eq_one_of_mem hB
      (List.mem_map.mpr ⟨(nm, a), hnm, rfl⟩)

/-- C5 (amended): under the guard that no context is added under an
existing name and the context designated by the `#activeContext`
reference is never removed, any sequence of addContext, removeContext and
setActiveContext operations leaves — whenever at least one context
exists — exactly one mapped context with `isActive = true`, and it is the
one the active reference designates. -/
theorem unique_active_invariant_under_guarded_ops (createDefault : Bool)
    (ops : List CtxOp)
    (hok : ctxOpsOk (initCtxState createDefault) ops = true)
    (hne : (applyCtxOps (initCtxState createDefault) ops).ctxMap ≠ []) :
    activeCount (applyCtxOps (initCtxState createDefault) ops) = 1 ∧
      ∃ a, (applyCtxOps (initCtxState createDefault) ops).activeId = some a ∧
        ∃ nm,
          (nm, a) ∈ (applyCtxOps (initCtxState createDefault) ops).ctxMap ∧
          (mapFind (applyCtxOps (initCtxState createDefault) ops).heap a).map
            CtxObj.isActive = some true :=
  ctxInv_unique_active _
    (ctxInv_applyCtxOps ops _ hok (ctxInv_init createDefault)) hne

/-- C5 (amended) witness: a guarded sequence — add a context, make it
active, then remove the no-longer-active default context — on which the
theorem applies. -/
theorem unique_active_invariant_witness :
    ctxOpsOk (initCtxState true)
        [.add "a", .setActive "a", .remove "main"] = true ∧
      (applyCtxOps (initCtxState true)
          [.add "a", .setActive "a", .remove "main"]).ctxMap ≠ [] ∧
      (activeCount (applyCtxOps (initCtxState true)
          [.add "a", .setActive "a", .remove "main"]) = 1 ∧
        ∃ a, (applyCtxOps (initCtxState true)
            [.add "a", .setActive "a", .remove "main"]).activeId = some a ∧
          ∃ nm, (nm, a) ∈ (applyCtxOps (initCtxState true)
              [.add "a", .setActive "a", .remove "main"]).ctxMap ∧
            (mapFind (applyCtxOps (initCtxState true)
                [.add "a", .setActive "a", .remove "main"]).heap a).map
              CtxObj.isActive = some true) :=
  ⟨by decide, by decide,
    unique_active_invariant_under_guarded_ops true
      [.add "a", .setActive "a", .remove "main"] (by decide) (by decide)⟩

/-- C5 counterexample: on a default-constructed DataSource (active
context "main"), the sequence addContext "a", removeContext "main"
leaves a nonempty context map in which no context has
`isActive = true` — `removeContext` deletes the entry without repointing
the `#activeContext` reference, which keeps designating the removed
object. -/
theorem remove_active_context_breaks_unique_active :
    (applyCtxOps (initCtxState true) [.add "a", .remove "main"]).ctxMap ≠ []
      ∧ activeCount
          (applyCtxOps (initCtxState true) [.add "a", .remove "main"]) = 0 :=
  ⟨by decide, by decide⟩

end CoreJS
